import Mathlib

/-!
Verification of the bounded thread-safe queue `QueueBTS_<T>` of
`src/Queues/QueueBTS/src/queue_bts.hpp` under its sequential semantics:
each public operation runs atomically (the mutexes serialize the bodies),
so a run of the queue is a sequence of atomic `try_push` / `try_pop`
steps on an explicit state.
-/

/-- State of a `QueueBTS_<T>` instance. Fields mirror the data members:
`_cont` (the `std::vector<T>` buffer), `_size` (occupancy), `_capacity`,
`_head` (removal cursor: `try_pop` reads `*_head`), `_tail` (insertion
cursor: `try_push` writes `*_tail`), `_isOK` (validity flag). Iterators
are modelled as indices into `cont`. -/
structure QueueBTS (α : Type) where
  cont : List α
  size : Nat
  capacity : Nat
  head : Nat
  tail : Nat
  isOK : Bool
deriving DecidableEq

namespace QueueBTS

variable {α : Type}

/-- The private helper `_handle_advance(h)`: `++h ; if (h == _cont.end()) h = _cont.begin()`,
i.e. increment an index with wraparound at the buffer length. -/
def handle_advance (q : QueueBTS α) (i : Nat) : Nat :=
  if i + 1 = q.cont.length then 0 else i + 1

/-- The private helper `_index_advance(i)`: `return ++i == _capacity ? 0 : i`. -/
def index_advance (q : QueueBTS α) (i : Nat) : Nat :=
  if i + 1 = q.capacity then 0 else i + 1

/-- The constructor `QueueBTS_(size_t cap)`. `assert(cap >= 2)` aborts the
program for `cap < 2` (modelled as `none`); otherwise the buffer is resized
to `cap` default-constructed slots (`allocOK` says whether `resize` throws;
on a throw, `resize`'s strong guarantee leaves `_cont` empty and the catch
block leaves `_isOK == false`), `_head = _cont.begin()`, `_tail = _head`,
and `_isOK = true` only after the resize succeeded. -/
def init [Inhabited α] (cap : Nat) (allocOK : Bool) : Option (QueueBTS α) :=
  if cap < 2 then none
  else if allocOK then
    some { cont := List.replicate cap default, size := 0, capacity := cap,
           head := 0, tail := 0, isOK := true }
  else
    some { cont := [], size := 0, capacity := cap, head := 0, tail := 0, isOK := false }

/-- The protected push body shared by `try_push` and `wait_to_push`:
`*_tail = std::move(value), _push_protected_tail()`, the latter being
`_handle_advance(_tail), ++_size`. -/
def push_step (q : QueueBTS α) (v : α) : QueueBTS α :=
  { q with cont := q.cont.set q.tail v,
           tail := q.handle_advance q.tail,
           size := q.size + 1 }

/-- The protected pop body shared by `try_pop` and `wait_and_pop`:
`_pop_protected_head(rs)` advances `_head` and sets `_size` to `rs - 1`
via the compare-exchange loop (sequentially: `_size - 1`). -/
def pop_step (q : QueueBTS α) : QueueBTS α :=
  { q with head := q.handle_advance q.head,
           size := q.size - 1 }

/-- The public operation `try_push(T value)`: `_check_for_capa()` succeeds iff `_size < _capacity`;
on failure return `false` with no mutation, on success run the push body and
return `true`. -/
def try_push (q : QueueBTS α) (v : α) : QueueBTS α × Bool :=
  if q.size < q.capacity then (q.push_step v, true) else (q, false)

/-- The public operation `try_pop(T& value)`: `_check_for_data()` succeeds iff the `_size` read
under the tail lock is `> 0`; on failure return `false` with no mutation,
on success `value = std::move(*_head)` then `_pop_protected_head`. The
by-reference result is modelled as `Option`: `none` means `false`. -/
def try_pop [Inhabited α] (q : QueueBTS α) : QueueBTS α × Option α :=
  if 0 < q.size then (q.pop_step, some (q.cont.getD q.head default)) else (q, none)

/-- The value-returning overload `T try_pop()`:
`T v{} ; this->try_pop(v) ; return v`, so a failed pop leaves the
default-constructed `v` in place. -/
def try_pop_val [Inhabited α] (q : QueueBTS α) : QueueBTS α × α :=
  ((q.try_pop).1, (q.try_pop).2.getD default)

/-- The public operation `wait_to_push(T value)` under sequential semantics: the wait on
`_cv_full` with predicate `_size < _capacity` either returns at once (room
available, then the push body runs) or blocks forever (`none`). -/
def wait_to_push (q : QueueBTS α) (v : α) : Option (QueueBTS α) :=
  if q.size < q.capacity then some (q.push_step v) else none

/-- The public operation `push_list(std::vector<T>&& inil)`: pushes `work[0], work[1], ...` in
order via `wait_to_push`, then returns `true`. `none` means some
`wait_to_push` blocked forever. -/
def push_list (q : QueueBTS α) : List α → Option (QueueBTS α × Bool)
  | [] => some (q, true)
  | v :: rest => (q.wait_to_push v).bind (fun q2 => q2.push_list rest)

/-- The indices of the input vector `work` that `push_list` reads, in
order: `work[i]` for `i = 0 .. sw-1` inside the loop, then `work[0]` in
the closing `Log_to` diagnostic (read unconditionally, even when
`sw == 0`). -/
def push_list_accesses (sw : Nat) : List Nat :=
  List.range sw ++ [0]

/-- The sequence of element indices visited by the loop of
`operator<<(std::ostream&, const QueueBTS_<T>&)`: `n` iterations starting
at index `ind`, each followed by `ind = _index_advance(ind)`. -/
def dump_indices (q : QueueBTS α) : Nat → Nat → List Nat
  | 0, _ => []
  | n + 1, ind => ind :: q.dump_indices n (q.index_advance ind)

/-- The elements rendered by `operator<<`: it prints `_size` elements,
the loop index starting at `_index_advance(_head - _cont.begin())`. -/
def dump_elems [Inhabited α] (q : QueueBTS α) : List α :=
  (q.dump_indices q.size (q.index_advance q.head)).map (fun i => q.cont.getD i default)

/-- Abstraction map: the logical FIFO contents of the queue, oldest first,
namely the `size` elements starting at the removal cursor with wraparound. -/
def absQ [Inhabited α] (q : QueueBTS α) : List α :=
  (List.range q.size).map (fun i => q.cont.getD ((q.head + i) % q.capacity) default)

/-- Well-formedness of a queue state: buffer length equals capacity,
capacity at least 2, occupancy within bounds, cursors in range, and the
cursor/occupancy agreement `tail = (head + size) % capacity`. -/
def WF (q : QueueBTS α) : Prop :=
  q.cont.length = q.capacity ∧ 2 ≤ q.capacity ∧ q.size ≤ q.capacity ∧
  q.head < q.capacity ∧ q.tail < q.capacity ∧
  q.tail = (q.head + q.size) % q.capacity

instance (q : QueueBTS α) : Decidable (WF q) := by
  unfold WF
  exact inferInstance

/-- Operations a client can issue in the sequential model. -/
inductive Op (α : Type) where
  | push (v : α)
  | pop
deriving DecidableEq

/-- Run a sequence of operations; return the final state, the list of
values successfully pushed (in push order) and the list of values popped
(in pop order). Failed attempts contribute nothing. -/
def run_ops [Inhabited α] : QueueBTS α → List (Op α) → QueueBTS α × List α × List α
  | q, [] => (q, [], [])
  | q, Op.push v :: ops =>
      let r := q.try_push v
      let rest := run_ops r.1 ops
      (rest.1, (if r.2 then v :: rest.2.1 else rest.2.1), rest.2.2)
  | q, Op.pop :: ops =>
      let r := q.try_pop
      let rest := run_ops r.1 ops
      (rest.1, rest.2.1, (match r.2 with | some x => x :: rest.2.2 | none => rest.2.2))

/-- States reachable from a successful construction by `try_push` /
`try_pop` steps. -/
inductive Reachable [Inhabited α] : QueueBTS α → Prop where
  | construct (cap : Nat) (q : QueueBTS α) (h : init cap true = some q) : Reachable q
  | push (q : QueueBTS α) (v : α) (h : Reachable q) : Reachable (q.try_push v).1
  | pop (q : QueueBTS α) (h : Reachable q) : Reachable (q.try_pop).1

/-- On a buffer of length `capacity`, `_handle_advance` is increment
modulo the capacity. -/
theorem handle_advance_eq_mod (q : QueueBTS α) (hlen : q.cont.length = q.capacity)
    (i : Nat) (hi : i < q.capacity) : q.handle_advance i = (i + 1) % q.capacity := by
  unfold handle_advance
  rw [hlen]
  by_cases h : i + 1 = q.capacity
  · rw [if_pos h, h, Nat.mod_self]
  · rw [if_neg h, Nat.mod_eq_of_lt (by omega)]

theorem getD_set_ne (l : List α) (i j : Nat) (a d : α) (h : i ≠ j) :
    (l.set i a).getD j d = l.getD j d := by
  rw [List.getD_eq_getD_get?, List.getD_eq_getD_get?, List.get?_set_ne a l h]

theorem getD_set_self (l : List α) (i : Nat) (a d : α) (h : i < l.length) :
    (l.set i a).getD i d = a := by
  rw [List.getD_eq_getElem _ _ (by simpa using h)]
  simp

/-- Two in-range offsets from a common base land on the same slot of the
ring only if they are equal. -/
theorem mod_offset_inj {c a : Nat} {i j : Nat} (hi : i < c) (hj : j < c)
    (h : (a + i) % c = (a + j) % c) : i = j := by
  have hm : i % c = j % c := Nat.ModEq.add_left_cancel' a h
  rwa [Nat.mod_eq_of_lt hi, Nat.mod_eq_of_lt hj] at hm

/-- The push body preserves well-formedness when the queue is not full. -/
theorem WF.push_step {q : QueueBTS α} (hwf : WF q) (hlt : q.size < q.capacity) (v : α) :
    WF (q.push_step v) := by
  obtain ⟨h1, h2, h3, h4, h5, h6⟩ := hwf
  have hadv : q.handle_advance q.tail = (q.tail + 1) % q.capacity :=
    handle_advance_eq_mod q h1 q.tail h5
  refine ⟨?_, h2, ?_, ?_, ?_, ?_⟩
  · show (q.cont.set q.tail v).length = q.capacity
    simpa using h1
  · show q.size + 1 ≤ q.capacity
    omega
  · show q.head < q.capacity
    exact h4
  · show q.handle_advance q.tail < q.capacity
    rw [hadv]
    exact Nat.mod_lt _ (by omega)
  · show q.handle_advance q.tail = (q.head + (q.size + 1)) % q.capacity
    rw [hadv, h6, Nat.mod_add_mod, Nat.add_assoc]

/-- The pop body preserves well-formedness when the queue is not empty. -/
theorem WF.pop_step {q : QueueBTS α} (hwf : WF q) (hpos : 0 < q.size) :
    WF q.pop_step := by
  obtain ⟨h1, h2, h3, h4, h5, h6⟩ := hwf
  have hadv : q.handle_advance q.head = (q.head + 1) % q.capacity :=
    handle_advance_eq_mod q h1 q.head h4
  refine ⟨h1, h2, ?_, ?_, h5, ?_⟩
  · show q.size - 1 ≤ q.capacity
    omega
  · show q.handle_advance q.head < q.capacity
    rw [hadv]
    exact Nat.mod_lt _ (by omega)
  · show q.tail = (q.handle_advance q.head + (q.size - 1)) % q.capacity
    rw [hadv, Nat.mod_add_mod, h6]
    congr 1
    omega

/-- Pushing onto a non-full well-formed queue appends the value to the
logical contents. -/
theorem absQ_push_step [Inhabited α] (q : QueueBTS α) (v : α) (hwf : WF q)
    (hlt : q.size < q.capacity) : (q.push_step v).absQ = q.absQ ++ [v] := by
  obtain ⟨h1, h2, h3, h4, h5, h6⟩ := hwf
  unfold absQ
  simp only [QueueBTS.push_step, List.range_succ, List.map_append, List.map_cons, List.map_nil]
  congr 1
  · apply List.map_congr_left
    intro i hi
    have hilt : i < q.size := List.mem_range.mp hi
    apply getD_set_ne
    intro hcontra
    rw [h6] at hcontra
    have : q.size = i := mod_offset_inj hlt (by omega) hcontra
    omega
  · rw [← h6]
    rw [getD_set_self q.cont q.tail v default (by omega)]

/-- Popping from a non-empty well-formed queue removes the front of the
logical contents, and the front is the slot at the removal cursor. -/
theorem absQ_pop_step [Inhabited α] (q : QueueBTS α) (hwf : WF q)
    (hpos : 0 < q.size) : q.absQ = q.cont.getD q.head default :: q.pop_step.absQ := by
  obtain ⟨h1, h2, h3, h4, h5, h6⟩ := hwf
  obtain ⟨n, hn⟩ : ∃ n, q.size = n + 1 := ⟨q.size - 1, by omega⟩
  unfold absQ
  simp only [QueueBTS.pop_step, hn, Nat.add_sub_cancel, List.range_succ_eq_map,
    List.map_cons, List.map_map]
  congr 1
  · rw [Nat.add_zero, Nat.mod_eq_of_lt h4]
  · apply List.map_congr_left
    intro i hi
    simp only [Function.comp_apply]
    rw [handle_advance_eq_mod q h1 q.head h4, Nat.mod_add_mod]
    congr 2
    omega

/-- A successfully constructed queue is well-formed. -/
theorem WF_init [Inhabited α] (cap : Nat) (q : QueueBTS α)
    (h : init cap true = some q) : WF q := by
  unfold init at h
  by_cases hcap : cap < 2
  · rw [if_pos hcap] at h
    exact absurd h (by simp)
  · rw [if_neg hcap, if_pos rfl] at h
    obtain rfl := (Option.some.injEq _ _).mp h
    refine ⟨?_, ?_, ?_, ?_, ?_, ?_⟩
    · show (List.replicate cap (default : α)).length = cap
      simp
    · show 2 ≤ cap
      omega
    · show 0 ≤ cap
      omega
    · show 0 < cap
      omega
    · show 0 < cap
      omega
    · show 0 = (0 + 0) % cap
      simp

theorem try_push_pos (q : QueueBTS α) (v : α) (h : q.size < q.capacity) :
    q.try_push v = (q.push_step v, true) := by
  unfold try_push
  rw [if_pos h]

theorem try_push_neg (q : QueueBTS α) (v : α) (h : ¬ q.size < q.capacity) :
    q.try_push v = (q, false) := by
  unfold try_push
  rw [if_neg h]

theorem try_pop_pos [Inhabited α] (q : QueueBTS α) (h : 0 < q.size) :
    q.try_pop = (q.pop_step, some (q.cont.getD q.head default)) := by
  unfold try_pop
  rw [if_pos h]

theorem try_pop_neg [Inhabited α] (q : QueueBTS α) (h : ¬ 0 < q.size) :
    q.try_pop = (q, none) := by
  unfold try_pop
  rw [if_neg h]

theorem wait_to_push_pos (q : QueueBTS α) (v : α) (h : q.size < q.capacity) :
    q.wait_to_push v = some (q.push_step v) := by
  unfold wait_to_push
  rw [if_pos h]

/-- Every reachable state is well-formed: this is the inductive invariant
maintained by construction, `try_push` and `try_pop`. -/
theorem reachable_wf [Inhabited α] {q : QueueBTS α} (h : Reachable q) : WF q := by
  induction h with
  | construct cap q h => exact WF_init cap q h
  | push q v h ih =>
      by_cases hlt : q.size < q.capacity
      · rw [try_push_pos q v hlt]
        exact WF.push_step ih hlt v
      · rw [try_push_neg q v hlt]
        exact ih
  | pop q h ih =>
      by_cases hpos : 0 < q.size
      · rw [try_pop_pos q hpos]
        exact WF.pop_step ih hpos
      · rw [try_pop_neg q hpos]
        exact ih

theorem run_ops_cons_push [Inhabited α] (q : QueueBTS α) (v : α) (ops : List (Op α)) :
    run_ops q (Op.push v :: ops) =
      ((run_ops (q.try_push v).1 ops).1,
       (if (q.try_push v).2 then v :: (run_ops (q.try_push v).1 ops).2.1
        else (run_ops (q.try_push v).1 ops).2.1),
       (run_ops (q.try_push v).1 ops).2.2) := rfl

theorem run_ops_cons_pop [Inhabited α] (q : QueueBTS α) (ops : List (Op α)) :
    run_ops q (Op.pop :: ops) =
      ((run_ops (q.try_pop).1 ops).1,
       (run_ops (q.try_pop).1 ops).2.1,
       (match (q.try_pop).2 with
        | some x => x :: (run_ops (q.try_pop).1 ops).2.2
        | none => (run_ops (q.try_pop).1 ops).2.2)) := rfl

/-- Soundness of any operation run: well-formedness is preserved, and the
values pushed so far are exactly the values popped so far followed by the
current logical contents (FIFO refinement). -/
theorem run_ops_spec [Inhabited α] (ops : List (Op α)) (q : QueueBTS α) (hwf : WF q) :
    WF (run_ops q ops).1 ∧
      q.absQ ++ (run_ops q ops).2.1 = (run_ops q ops).2.2 ++ ((run_ops q ops).1).absQ := by
  induction ops generalizing q with
  | nil => exact ⟨hwf, by simp [run_ops]⟩
  | cons op ops ih =>
    cases op with
    | push v =>
      by_cases hlt : q.size < q.capacity
      · obtain ⟨ihwf, iheq⟩ := ih (q.push_step v) (WF.push_step hwf hlt v)
        rw [run_ops_cons_push, try_push_pos q v hlt]
        refine ⟨ihwf, ?_⟩
        simp only [if_true]
        rw [List.append_cons, ← absQ_push_step q v hwf hlt]
        exact iheq
      · obtain ⟨ihwf, iheq⟩ := ih q hwf
        rw [run_ops_cons_push, try_push_neg q v hlt]
        exact ⟨ihwf, by simpa using iheq⟩
    | pop =>
      by_cases hpos : 0 < q.size
      · obtain ⟨ihwf, iheq⟩ := ih q.pop_step (WF.pop_step hwf hpos)
        rw [run_ops_cons_pop, try_pop_pos q hpos]
        refine ⟨ihwf, ?_⟩
        rw [absQ_pop_step q hwf hpos]
        simp only [List.cons_append]
        rw [iheq]
      · obtain ⟨ihwf, iheq⟩ := ih q hwf
        rw [run_ops_cons_pop, try_pop_neg q hpos]
        exact ⟨ihwf, by simpa using iheq⟩

/-- Soundness of `push_list` when the buffer has room for the whole input:
it completes, returns `true`, and appends the input to the logical
contents in order. -/
theorem push_list_sound [Inhabited α] (work : List α) (q : QueueBTS α) (hwf : WF q)
    (hroom : q.size + work.length ≤ q.capacity) :
    ∃ q2, q.push_list work = some (q2, true) ∧ q2.absQ = q.absQ ++ work ∧ WF q2 := by
  induction work generalizing q with
  | nil => exact ⟨q, rfl, by simp, hwf⟩
  | cons v rest ih =>
    have hlen : (v :: rest).length = rest.length + 1 := by simp
    have hlt : q.size < q.capacity := by omega
    have hroom2 : (q.push_step v).size + rest.length ≤ (q.push_step v).capacity := by
      show q.size + 1 + rest.length ≤ q.capacity
      omega
    obtain ⟨q2, hq2, habs, hwq2⟩ := ih (q.push_step v) (WF.push_step hwf hlt v) hroom2
    refine ⟨q2, ?_, ?_, hwq2⟩
    · show (q.wait_to_push v).bind (fun q3 => q3.push_list rest) = some (q2, true)
      rw [wait_to_push_pos q v hlt, Option.some_bind]
      exact hq2
    · rw [habs, absQ_push_step q v hwf hlt, List.append_assoc]
      rfl

/-- A queue of occupancy 0 has empty logical contents. -/
theorem absQ_of_size_zero [Inhabited α] (q : QueueBTS α) (h : q.size = 0) :
    q.absQ = [] := by
  unfold absQ
  rw [h]
  rfl

/-- Elimination for a successful construction: the resulting state is the
fresh empty queue and the capacity was at least 2. -/
theorem init_some_elim [Inhabited α] (cap : Nat) (q : QueueBTS α)
    (h : init cap true = some q) :
    q = { cont := List.replicate cap default, size := 0, capacity := cap,
          head := 0, tail := 0, isOK := true } ∧ 2 ≤ cap := by
  unfold init at h
  by_cases hcap : cap < 2
  · rw [if_pos hcap] at h
    exact absurd h (by simp)
  · rw [if_neg hcap, if_pos rfl] at h
    exact ⟨((Option.some.injEq _ _).mp h).symm, by omega⟩

end QueueBTS

open QueueBTS

/-- C1: starting from an empty queue of capacity 5, pushing 0,1,2,3,4
fills the queue; a subsequent try_push(5) returns false; popping 3
elements yields 0,1,2 in that order; pushing 0,1,2 again succeeds, leaving
the queue full with logical contents 3,4,0,1,2; popping all 5 elements
then yields exactly 3,4,0,1,2. -/
theorem c1_concrete_scenario :
    (QueueBTS.init 5 true : Option (QueueBTS Nat)) =
      some ⟨[0, 0, 0, 0, 0], 0, 5, 0, 0, true⟩ ∧
    run_ops (⟨[0, 0, 0, 0, 0], 0, 5, 0, 0, true⟩ : QueueBTS Nat)
        [Op.push 0, Op.push 1, Op.push 2, Op.push 3, Op.push 4] =
      (⟨[0, 1, 2, 3, 4], 5, 5, 0, 0, true⟩, [0, 1, 2, 3, 4], []) ∧
    (⟨[0, 1, 2, 3, 4], 5, 5, 0, 0, true⟩ : QueueBTS Nat).size =
      (⟨[0, 1, 2, 3, 4], 5, 5, 0, 0, true⟩ : QueueBTS Nat).capacity ∧
    try_push (⟨[0, 1, 2, 3, 4], 5, 5, 0, 0, true⟩ : QueueBTS Nat) 5 =
      (⟨[0, 1, 2, 3, 4], 5, 5, 0, 0, true⟩, false) ∧
    run_ops (⟨[0, 1, 2, 3, 4], 5, 5, 0, 0, true⟩ : QueueBTS Nat) [Op.pop, Op.pop, Op.pop] =
      (⟨[0, 1, 2, 3, 4], 2, 5, 3, 0, true⟩, [], [0, 1, 2]) ∧
    run_ops (⟨[0, 1, 2, 3, 4], 2, 5, 3, 0, true⟩ : QueueBTS Nat)
        [Op.push 0, Op.push 1, Op.push 2] =
      (⟨[0, 1, 2, 3, 4], 5, 5, 3, 3, true⟩, [0, 1, 2], []) ∧
    (⟨[0, 1, 2, 3, 4], 5, 5, 3, 3, true⟩ : QueueBTS Nat).size =
      (⟨[0, 1, 2, 3, 4], 5, 5, 3, 3, true⟩ : QueueBTS Nat).capacity ∧
    absQ (⟨[0, 1, 2, 3, 4], 5, 5, 3, 3, true⟩ : QueueBTS Nat) = [3, 4, 0, 1, 2] ∧
    run_ops (⟨[0, 1, 2, 3, 4], 5, 5, 3, 3, true⟩ : QueueBTS Nat)
        [Op.pop, Op.pop, Op.pop, Op.pop, Op.pop] =
      (⟨[0, 1, 2, 3, 4], 0, 5, 3, 3, true⟩, [], [3, 4, 0, 1, 2]) := by
  decide

/-- C2: for every reachable state, 0 ≤ occupancy ≤ capacity; try_pop
fails exactly when occupancy is 0; try_push fails exactly when occupancy
equals the capacity. -/
theorem c2_capacity_invariant {α : Type} [Inhabited α] (q : QueueBTS α) (v : α)
    (h : Reachable q) :
    0 ≤ q.size ∧ q.size ≤ q.capacity ∧
    ((q.try_pop).2 = none ↔ q.size = 0) ∧
    ((q.try_push v).2 = false ↔ q.size = q.capacity) := by
  obtain ⟨h1, h2, h3, h4, h5, h6⟩ := reachable_wf h
  refine ⟨Nat.zero_le _, h3, ?_, ?_⟩
  · by_cases hpos : 0 < q.size
    · rw [try_pop_pos q hpos]
      simp only [Prod.snd]
      constructor
      · intro hc
        exact absurd hc (by simp)
      · intro hc
        omega
    · rw [try_pop_neg q hpos]
      simp only [Prod.snd]
      constructor
      · intro _
        omega
      · intro _
        trivial
  · by_cases hlt : q.size < q.capacity
    · rw [try_push_pos q v hlt]
      simp only [Prod.snd]
      constructor
      · intro hc
        exact absurd hc (by simp)
      · intro hc
        omega
    · rw [try_push_neg q v hlt]
      simp only [Prod.snd]
      constructor
      · intro _
        omega
      · intro _
        trivial

/-- Witness for C2 at the freshly constructed capacity-2 queue. -/
theorem c2_capacity_invariant_witness :
    0 ≤ (⟨[0, 0], 0, 2, 0, 0, true⟩ : QueueBTS Nat).size ∧
    (⟨[0, 0], 0, 2, 0, 0, true⟩ : QueueBTS Nat).size ≤
      (⟨[0, 0], 0, 2, 0, 0, true⟩ : QueueBTS Nat).capacity ∧
    ((try_pop (⟨[0, 0], 0, 2, 0, 0, true⟩ : QueueBTS Nat)).2 = none ↔
      (⟨[0, 0], 0, 2, 0, 0, true⟩ : QueueBTS Nat).size = 0) ∧
    ((try_push (⟨[0, 0], 0, 2, 0, 0, true⟩ : QueueBTS Nat) 7).2 = false ↔
      (⟨[0, 0], 0, 2, 0, 0, true⟩ : QueueBTS Nat).size =
        (⟨[0, 0], 0, 2, 0, 0, true⟩ : QueueBTS Nat).capacity) :=
  c2_capacity_invariant ⟨[0, 0], 0, 2, 0, 0, true⟩ 7
    (Reachable.construct 2 ⟨[0, 0], 0, 2, 0, 0, true⟩ (by decide))

/-- C3: on a well-formed state, try_push on a full queue returns false and
changes nothing; otherwise it writes the value at the insertion cursor,
advances that cursor by one modulo capacity, increments the occupancy and
returns true. -/
theorem c3_try_push_semantics {α : Type} (q : QueueBTS α) (v : α) (hwf : WF q) :
    (q.size = q.capacity → q.try_push v = (q, false)) ∧
    (q.size ≠ q.capacity →
      q.try_push v =
        ({ q with cont := q.cont.set q.tail v,
                  tail := (q.tail + 1) % q.capacity,
                  size := q.size + 1 }, true)) := by
  obtain ⟨h1, h2, h3, h4, h5, h6⟩ := hwf
  constructor
  · intro heq
    exact try_push_neg q v (by omega)
  · intro hne
    have hlt : q.size < q.capacity := by omega
    rw [try_push_pos q v hlt]
    rw [Prod.mk.injEq]
    refine ⟨?_, rfl⟩
    unfold QueueBTS.push_step
    rw [handle_advance_eq_mod q h1 q.tail h5]

/-- Witness for C3: pushing 9 onto the fresh capacity-2 queue. -/
theorem c3_try_push_semantics_witness :
    try_push (⟨[0, 0], 0, 2, 0, 0, true⟩ : QueueBTS Nat) 9 =
      (⟨[9, 0], 1, 2, 0, 1, true⟩, true) := by
  have h :=
    (c3_try_push_semantics (⟨[0, 0], 0, 2, 0, 0, true⟩ : QueueBTS Nat) 9 (by decide)).2
      (by decide)
  exact h.trans (by decide)

/-- C4: on a well-formed state, try_pop on an empty queue returns the
empty result (an exception is never involved: the operation is a total
function) and changes nothing; otherwise it returns the element at the
removal cursor, advances that cursor by one modulo capacity and
decrements the occupancy. -/
theorem c4_try_pop_semantics {α : Type} [Inhabited α] (q : QueueBTS α) (hwf : WF q) :
    (q.size = 0 → q.try_pop = (q, none)) ∧
    (q.size ≠ 0 →
      q.try_pop =
        ({ q with head := (q.head + 1) % q.capacity, size := q.size - 1 },
         some (q.cont.getD q.head default))) := by
  obtain ⟨h1, h2, h3, h4, h5, h6⟩ := hwf
  constructor
  · intro heq
    exact try_pop_neg q (by omega)
  · intro hne
    rw [try_pop_pos q (by omega)]
    rw [Prod.mk.injEq]
    refine ⟨?_, rfl⟩
    unfold QueueBTS.pop_step
    rw [handle_advance_eq_mod q h1 q.head h4]

/-- Witness for C4: popping from a capacity-2 queue holding one element. -/
theorem c4_try_pop_semantics_witness :
    try_pop (⟨[7, 0], 1, 2, 0, 1, true⟩ : QueueBTS Nat) =
      (⟨[7, 0], 0, 2, 1, 1, true⟩, some 7) := by
  have h :=
    (c4_try_pop_semantics (⟨[7, 0], 1, 2, 0, 1, true⟩ : QueueBTS Nat) (by decide)).2
      (by decide)
  exact h.trans (by decide)

/-- C5: for any sequence of push/pop operations issued from a freshly
constructed queue, the values pushed equal the values popped followed by
the remaining logical contents (so pops deliver pushed values in FIFO
order, and equal the pushes outright once the queue is drained), and the
capacity invariant holds at the end; no bound is placed on the number of
operations, so this covers runs of more than 2×capacity operations in
which both cursors wrap repeatedly. -/
theorem c5_fifo_refinement {α : Type} [Inhabited α] (cap : Nat) (q0 : QueueBTS α)
    (h0 : QueueBTS.init cap true = some q0) (ops : List (Op α)) :
    (run_ops q0 ops).2.1 = (run_ops q0 ops).2.2 ++ ((run_ops q0 ops).1).absQ ∧
    (run_ops q0 ops).1.size ≤ (run_ops q0 ops).1.capacity ∧
    ((run_ops q0 ops).1.size = 0 → (run_ops q0 ops).2.1 = (run_ops q0 ops).2.2) := by
  have hwf := WF_init cap q0 h0
  obtain ⟨rwf, req⟩ := run_ops_spec ops q0 hwf
  have hsz : q0.size = 0 := by
    obtain ⟨rfl, h2⟩ := init_some_elim cap q0 h0
    rfl
  rw [absQ_of_size_zero q0 hsz, List.nil_append] at req
  refine ⟨req, rwf.2.2.1, ?_⟩
  intro hzero
  rw [req, absQ_of_size_zero _ hzero, List.append_nil]

/-- Witness for C5: a run of 20 = 4×capacity alternating operations on a
capacity-5 queue; each cursor advances 10 times, wrapping twice. -/
theorem c5_fifo_refinement_witness :
    (QueueBTS.init 5 true : Option (QueueBTS Nat)) =
      some ⟨[0, 0, 0, 0, 0], 0, 5, 0, 0, true⟩ ∧
    ((run_ops (⟨[0, 0, 0, 0, 0], 0, 5, 0, 0, true⟩ : QueueBTS Nat)
        [Op.push 1, Op.pop, Op.push 2, Op.pop, Op.push 3, Op.pop, Op.push 4, Op.pop,
         Op.push 5, Op.pop, Op.push 6, Op.pop, Op.push 7, Op.pop, Op.push 8, Op.pop,
         Op.push 9, Op.pop, Op.push 10, Op.pop]).2.1 =
      (run_ops (⟨[0, 0, 0, 0, 0], 0, 5, 0, 0, true⟩ : QueueBTS Nat)
        [Op.push 1, Op.pop, Op.push 2, Op.pop, Op.push 3, Op.pop, Op.push 4, Op.pop,
         Op.push 5, Op.pop, Op.push 6, Op.pop, Op.push 7, Op.pop, Op.push 8, Op.pop,
         Op.push 9, Op.pop, Op.push 10, Op.pop]).2.2 ++
      ((run_ops (⟨[0, 0, 0, 0, 0], 0, 5, 0, 0, true⟩ : QueueBTS Nat)
        [Op.push 1, Op.pop, Op.push 2, Op.pop, Op.push 3, Op.pop, Op.push 4, Op.pop,
         Op.push 5, Op.pop, Op.push 6, Op.pop, Op.push 7, Op.pop, Op.push 8, Op.pop,
         Op.push 9, Op.pop, Op.push 10, Op.pop]).1).absQ ∧
      (run_ops (⟨[0, 0, 0, 0, 0], 0, 5, 0, 0, true⟩ : QueueBTS Nat)
        [Op.push 1, Op.pop, Op.push 2, Op.pop, Op.push 3, Op.pop, Op.push 4, Op.pop,
         Op.push 5, Op.pop, Op.push 6, Op.pop, Op.push 7, Op.pop, Op.push 8, Op.pop,
         Op.push 9, Op.pop, Op.push 10, Op.pop]).1.size ≤
      (run_ops (⟨[0, 0, 0, 0, 0], 0, 5, 0, 0, true⟩ : QueueBTS Nat)
        [Op.push 1, Op.pop, Op.push 2, Op.pop, Op.push 3, Op.pop, Op.push 4, Op.pop,
         Op.push 5, Op.pop, Op.push 6, Op.pop, Op.push 7, Op.pop, Op.push 8, Op.pop,
         Op.push 9, Op.pop, Op.push 10, Op.pop]).1.capacity ∧
      ((run_ops (⟨[0, 0, 0, 0, 0], 0, 5, 0, 0, true⟩ : QueueBTS Nat)
        [Op.push 1, Op.pop, Op.push 2, Op.pop, Op.push 3, Op.pop, Op.push 4, Op.pop,
         Op.push 5, Op.pop, Op.push 6, Op.pop, Op.push 7, Op.pop, Op.push 8, Op.pop,
         Op.push 9, Op.pop, Op.push 10, Op.pop]).1.size = 0 →
       (run_ops (⟨[0, 0, 0, 0, 0], 0, 5, 0, 0, true⟩ : QueueBTS Nat)
        [Op.push 1, Op.pop, Op.push 2, Op.pop, Op.push 3, Op.pop, Op.push 4, Op.pop,
         Op.push 5, Op.pop, Op.push 6, Op.pop, Op.push 7, Op.pop, Op.push 8, Op.pop,
         Op.push 9, Op.pop, Op.push 10, Op.pop]).2.1 =
       (run_ops (⟨[0, 0, 0, 0, 0], 0, 5, 0, 0, true⟩ : QueueBTS Nat)
        [Op.push 1, Op.pop, Op.push 2, Op.pop, Op.push 3, Op.pop, Op.push 4, Op.pop,
         Op.push 5, Op.pop, Op.push 6, Op.pop, Op.push 7, Op.pop, Op.push 8, Op.pop,
         Op.push 9, Op.pop, Op.push 10, Op.pop]).2.2)) :=
  ⟨by decide,
   c5_fifo_refinement 5 ⟨[0, 0, 0, 0, 0], 0, 5, 0, 0, true⟩ (by decide)
     [Op.push 1, Op.pop, Op.push 2, Op.pop, Op.push 3, Op.pop, Op.push 4, Op.pop,
      Op.push 5, Op.pop, Op.push 6, Op.pop, Op.push 7, Op.pop, Op.push 8, Op.pop,
      Op.push 9, Op.pop, Op.push 10, Op.pop]⟩

/-- C6 (divergence witness): on the capacity-2 queue reached by pushing
10 then 20, the dump of `operator<<` renders the elements starting at
`_index_advance(_head)` rather than at `_head`: it prints 20 then 10,
while the logical FIFO contents are 10 then 20 and the next `try_pop`
returns 10. -/
theorem c6_dump_starts_after_head :
    (QueueBTS.init 2 true : Option (QueueBTS Nat)) = some ⟨[0, 0], 0, 2, 0, 0, true⟩ ∧
    (run_ops (⟨[0, 0], 0, 2, 0, 0, true⟩ : QueueBTS Nat)
        [Op.push 10, Op.push 20]).1 = ⟨[10, 20], 2, 2, 0, 0, true⟩ ∧
    dump_elems (⟨[10, 20], 2, 2, 0, 0, true⟩ : QueueBTS Nat) = [20, 10] ∧
    absQ (⟨[10, 20], 2, 2, 0, 0, true⟩ : QueueBTS Nat) = [10, 20] ∧
    (try_pop (⟨[10, 20], 2, 2, 0, 0, true⟩ : QueueBTS Nat)).2 = some 10 := by
  decide

/-- C7: construction aborts (produces no instance) for capacity < 2; a
produced instance is valid only if the storage allocation of exactly
`capacity` slots succeeded; an allocation failure leaves the validity
flag false; and for capacity ≥ 2 with successful allocation the result is
valid, empty, with both cursors at 0. -/
theorem c7_construction {α : Type} [Inhabited α] (cap : Nat) (allocOK : Bool) :
    (cap < 2 → (QueueBTS.init cap allocOK : Option (QueueBTS α)) = none) ∧
    (∀ q : QueueBTS α, QueueBTS.init cap allocOK = some q → q.isOK = true →
        allocOK = true ∧ q.cont.length = cap) ∧
    (∀ q : QueueBTS α, QueueBTS.init cap false = some q → q.isOK = false) ∧
    (2 ≤ cap → ∃ q : QueueBTS α, QueueBTS.init cap true = some q ∧ q.isOK = true ∧
        q.cont.length = cap ∧ q.size = 0 ∧ q.head = 0 ∧ q.tail = 0) := by
  refine ⟨?_, ?_, ?_, ?_⟩
  · intro h
    unfold QueueBTS.init
    rw [if_pos h]
  · intro q hq hok
    unfold QueueBTS.init at hq
    by_cases hcap : cap < 2
    · rw [if_pos hcap] at hq
      exact absurd hq (by simp)
    · rw [if_neg hcap] at hq
      cases allocOK with
      | false =>
          simp only [Bool.false_eq_true, if_false] at hq
          obtain rfl := ((Option.some.injEq _ _).mp hq).symm
          exact absurd hok (by simp)
      | true =>
          rw [if_pos rfl] at hq
          obtain rfl := ((Option.some.injEq _ _).mp hq).symm
          exact ⟨rfl, by simp⟩
  · intro q hq
    unfold QueueBTS.init at hq
    by_cases hcap : cap < 2
    · rw [if_pos hcap] at hq
      exact absurd hq (by simp)
    · rw [if_neg hcap] at hq
      simp only [Bool.false_eq_true, if_false] at hq
      obtain rfl := ((Option.some.injEq _ _).mp hq).symm
      rfl
  · intro hcap2
    refine ⟨{ cont := List.replicate cap default, size := 0, capacity := cap,
              head := 0, tail := 0, isOK := true }, ?_, rfl, by simp, rfl, rfl, rfl⟩
    unfold QueueBTS.init
    rw [if_neg (by omega), if_pos rfl]

/-- Witness for C7 at capacities 1 and 2. -/
theorem c7_construction_witness :
    (QueueBTS.init 1 true : Option (QueueBTS Nat)) = none ∧
    (∀ q : QueueBTS Nat, QueueBTS.init 2 false = some q → q.isOK = false) ∧
    (∃ q : QueueBTS Nat, QueueBTS.init 2 true = some q ∧ q.isOK = true ∧
        q.cont.length = 2 ∧ q.size = 0 ∧ q.head = 0 ∧ q.tail = 0) :=
  ⟨(c7_construction 1 true).1 (by decide),
   (c7_construction 2 false).2.2.1,
   (c7_construction 2 true).2.2.2 (by decide)⟩

/-- C8: in every reachable state the insertion cursor equals the removal
cursor plus the occupancy, modulo the capacity, so the occupancy counter
disambiguates the cursor-equal case between empty and full. -/
theorem c8_cursor_agreement {α : Type} [Inhabited α] (q : QueueBTS α)
    (h : Reachable q) : q.tail = (q.head + q.size) % q.capacity :=
  (reachable_wf h).2.2.2.2.2

/-- Witness for C8 after one push on a fresh capacity-2 queue. -/
theorem c8_cursor_agreement_witness :
    (try_push (⟨[0, 0], 0, 2, 0, 0, true⟩ : QueueBTS Nat) 7).1.tail =
      ((try_push (⟨[0, 0], 0, 2, 0, 0, true⟩ : QueueBTS Nat) 7).1.head +
        (try_push (⟨[0, 0], 0, 2, 0, 0, true⟩ : QueueBTS Nat) 7).1.size) %
        (try_push (⟨[0, 0], 0, 2, 0, 0, true⟩ : QueueBTS Nat) 7).1.capacity :=
  c8_cursor_agreement (try_push (⟨[0, 0], 0, 2, 0, 0, true⟩ : QueueBTS Nat) 7).1
    (Reachable.push ⟨[0, 0], 0, 2, 0, 0, true⟩ 7
      (Reachable.construct 2 ⟨[0, 0], 0, 2, 0, 0, true⟩ (by decide)))

/-- C9: on an empty queue the value-returning overload returns the
default-constructed value and leaves the state unchanged; moreover a
non-empty queue whose front slot holds the default value produces the very
same return value, so the caller cannot distinguish the two. -/
theorem c9_try_pop_val_default {α : Type} [Inhabited α] (q : QueueBTS α)
    (h : q.size = 0) :
    q.try_pop_val = (q, (default : α)) ∧
    ∃ q2 : QueueBTS α, 0 < q2.size ∧ (q2.try_pop_val).2 = (default : α) := by
  constructor
  · unfold QueueBTS.try_pop_val
    rw [try_pop_neg q (by omega)]
    rfl
  · refine ⟨⟨[default, default], 1, 2, 0, 0, true⟩, Nat.one_pos, ?_⟩
    unfold QueueBTS.try_pop_val
    rw [try_pop_pos ⟨[default, default], 1, 2, 0, 0, true⟩ Nat.one_pos]
    rfl

/-- Witness for C9 at the fresh capacity-2 queue. -/
theorem c9_try_pop_val_default_witness :
    try_pop_val (⟨[0, 0], 0, 2, 0, 0, true⟩ : QueueBTS Nat) =
      (⟨[0, 0], 0, 2, 0, 0, true⟩, 0) ∧
    ∃ q2 : QueueBTS Nat, 0 < q2.size ∧ (q2.try_pop_val).2 = 0 :=
  c9_try_pop_val_default (⟨[0, 0], 0, 2, 0, 0, true⟩ : QueueBTS Nat) (by decide)

/-- C10: for a non-empty input list that fits into the remaining room,
push_list pushes every element in order (appending the list to the
logical contents), returns true, and every access it makes to the input
— the loop reads and the final diagnostic read of element 0 — is in
bounds; the in-bounds guarantee needs the input to be non-empty because
the diagnostic read of element 0 is unconditional. -/
theorem c10_push_list_safety {α : Type} [Inhabited α] (q : QueueBTS α)
    (work : List α) (hwf : WF q) (hroom : q.size + work.length ≤ q.capacity)
    (hne : work ≠ []) :
    (∃ q2, q.push_list work = some (q2, true) ∧ q2.absQ = q.absQ ++ work ∧ WF q2) ∧
    (∀ i ∈ push_list_accesses work.length, i < work.length) := by
  refine ⟨push_list_sound work q hwf hroom, ?_⟩
  intro i hi
  have hpos : 0 < work.length := List.length_pos.mpr hne
  unfold QueueBTS.push_list_accesses at hi
  rcases List.mem_append.mp hi with h | h
  · exact List.mem_range.mp h
  · have : i = 0 := by simpa using h
    omega

/-- Witness for C10: pushing the three-element list 1,2,3 onto the fresh
capacity-5 queue. -/
theorem c10_push_list_safety_witness :
    (∃ q2, push_list (⟨[0, 0, 0, 0, 0], 0, 5, 0, 0, true⟩ : QueueBTS Nat) [1, 2, 3] =
        some (q2, true) ∧
      q2.absQ = absQ (⟨[0, 0, 0, 0, 0], 0, 5, 0, 0, true⟩ : QueueBTS Nat) ++ [1, 2, 3] ∧
      WF q2) ∧
    (∀ i ∈ push_list_accesses ([1, 2, 3] : List Nat).length,
      i < ([1, 2, 3] : List Nat).length) :=
  c10_push_list_safety (⟨[0, 0, 0, 0, 0], 0, 5, 0, 0, true⟩ : QueueBTS Nat) [1, 2, 3]
    (by decide) (by decide) (by decide)
